import Mathlib

/-!
Verification of the movie-collection storage and query layer of the
Movie-Project CLI application.

The Persistent Store (`storage/movie_storage_sql.py`) is modelled as a list of
movie rows in insertion (rowid) order; the SQLite `UNIQUE(user_id, title)`
constraint becomes an explicit well-formedness predicate and an explicit
duplicate check in `Storage.add_movie` (an `IntegrityError` surfaces as
`StoreError.duplicateMovie`, mirroring the `ValueError` raised by the Python
code).  Each mutating operation returns the new store together with an
optional error; on error the store is returned unchanged (each Python
operation runs in its own transaction, which rolls back on failure).

The Collection Service and Derived Views (`main.py`) are pure functions over
snapshots (`MovieData`), exactly as in the source.  Python's builtin `sorted`
(a stable sort) is modelled by `List.insertionSort`, which is also stable;
`statistics.median` and `max`/`min` over a list are translated from their
CPython implementations; `difflib.get_close_matches` is modelled by filtering
on a Ratcliff-Obershelp similarity score, ranking by descending
`(score, string)` and taking the first `n` - see `get_close_matches` below.

Ratings (Python floats) are modelled as rational numbers, years as integers.
-/

namespace MovieApp

/-- A movie record as stored per title in a snapshot:
`{"year": ..., "rating": ..., "poster": ...}` (`MovieRecord` TypedDict in
`movie_storage_sql.py`). -/
structure MovieRecord where
  year : Int
  rating : Rat
  poster : String
deriving DecidableEq, Repr

/-- A snapshot of one user's collection: the `MovieData` dict
(title -> record), in row order. -/
abbrev MovieData := List (String × MovieRecord)

/-- One row of the `movies` table. -/
structure MovieRow where
  user_id : Nat
  title : String
  year : Int
  rating : Rat
  poster : String
deriving DecidableEq, Repr

/-- The `movies` table, rows in insertion (rowid) order. -/
abbrev Store := List MovieRow

/-- Errors raised by the store: `duplicateMovie` is the `ValueError` raised
on `IntegrityError` in `add_movie` ("Film existiert bereits für diesen
User."), `notFound` is the `KeyError` raised when `delete_movie` or
`update_movie` affect zero rows ("Film nicht gefunden."). -/
inductive StoreError where
  | duplicateMovie
  | notFound
deriving DecidableEq, Repr

/-- The `UNIQUE(user_id, title)` constraint of the `movies` table: no two
rows share the same owner and exact title. -/
abbrev Store.wf (s : Store) : Prop :=
  s.Pairwise (fun r₁ r₂ => ¬(r₁.user_id = r₂.user_id ∧ r₁.title = r₂.title))

/-- Does the store hold a row for this exact `(user_id, title)` pair? -/
def Store.hasRow (s : Store) (uid : Nat) (title : String) : Bool :=
  s.any (fun r => r.user_id == uid && r.title == title)

namespace Storage

/-- `get_movies(user_id)`: the full snapshot of one user's movies, as a
title-to-record mapping built from the selected rows. -/
def get_movies (uid : Nat) (s : Store) : MovieData :=
  (s.filter (fun r => r.user_id == uid)).map
    (fun r => (r.title, ⟨r.year, r.rating, r.poster⟩))

/-- `add_movie(user_id, title, year, rating, poster)`: insert a new row;
the `UNIQUE(user_id, title)` constraint rejects an exact duplicate, which the
Python code re-raises as a `ValueError` (modelled by `duplicateMovie`).
The transaction rolls back on failure, so the store is returned unchanged. -/
def add_movie (s : Store) (uid : Nat) (title : String) (year : Int)
    (rating : Rat) (poster : String) : Store × Option StoreError :=
  if s.hasRow uid title then
    (s, some StoreError.duplicateMovie)
  else
    (s ++ [⟨uid, title, year, rating, poster⟩], none)

/-- `delete_movie(user_id, title)`: `DELETE ... WHERE user_id = ... AND
title = ...`; raises (`notFound`) exactly when the rowcount is zero. -/
def delete_movie (s : Store) (uid : Nat) (title : String) :
    Store × Option StoreError :=
  let remaining := s.filter (fun r => !(r.user_id == uid && r.title == title))
  if remaining.length == s.length then
    (s, some StoreError.notFound)
  else
    (remaining, none)

/-- `update_movie(user_id, title, rating)`: `UPDATE movies SET rating = ...
WHERE user_id = ... AND title = ...`; raises (`notFound`) exactly when the
rowcount is zero. -/
def update_movie (s : Store) (uid : Nat) (title : String) (rating : Rat) :
    Store × Option StoreError :=
  if s.hasRow uid title then
    (s.map (fun r =>
      if r.user_id == uid && r.title == title then
        { r with rating := rating }
      else r), none)
  else
    (s, some StoreError.notFound)

end Storage

/-- Python's `str.strip()`: drop leading and trailing whitespace from a list
of characters. -/
def pyStrip (l : List Char) : List Char :=
  ((l.dropWhile Char.isWhitespace).reverse.dropWhile Char.isWhitespace).reverse

/-- `normalize(text)` from `main.py`: `text.strip().lower()` - trim
whitespace, then lowercase every character. -/
def normalize (text : String) : String :=
  String.mk ((pyStrip text.data).map Char.toLower)

/-- `find_exact_key_case_insensitive(movies, title)`: the first stored key
whose normalization equals the normalized query, scanning keys in snapshot
order. -/
def find_exact_key_case_insensitive (movies : MovieData) (title : String) :
    Option String :=
  (movies.map Prod.fst).find? (fun key => normalize key == normalize title)

/-- Python truthiness of an `Optional[str]`: `None` and the empty string are
falsy.  The CLI guards (`if existing:`) use this, not an `is None` test. -/
def truthyStr : Option String → Bool
  | none => false
  | some s => !(s == "")

/-- The record returned by `movie_api.fetch_movie_from_omdb` on success:
the OMDb-resolved title (which may differ from the user-typed query),
year, rating and poster URL. -/
structure FetchedMovie where
  title : String
  year : Int
  rating : Rat
  poster : String
deriving DecidableEq, Repr

/-- Outcome of the OMDb fetch inside the CLI `add_movie` flow.  On
`unreachable` (an `ApiConnectionError`), the CLI prompts the user for a
manual year and rating, modelled here as payload of the constructor. -/
inductive ApiResult where
  | success (fetched : FetchedMovie)
  | notFound
  | unreachable (manualYear : Int) (manualRating : Rat)
deriving DecidableEq, Repr

/-- The user-visible outcome of one run of the CLI `add_movie` flow.
`uncaught e` models a store exception that no `except` clause in
`add_movie` handles, so it escapes the function (and, since `main` has no
handler either, terminates the process). -/
inductive AddOutcome where
  | duplicateRejected
  | added (title : String)
  | apiNotFoundMsg
  | uncaught (e : StoreError)
deriving DecidableEq, Repr

/-- `add_movie(user_id)` from `main.py`, with the interactive input (the
typed title) and the OMDb outcome as parameters: fetch a fresh snapshot,
reject when the typed title resolves case-insensitively to an existing key
(Python truthiness of the resolved key), otherwise insert - the
OMDb-resolved title on API success, the typed title (with empty poster) in
the manual fallback.  Only `MovieNotFoundError` and `ApiConnectionError`
are caught; a store `ValueError` escapes as `uncaught`. -/
def add_movie (s : Store) (uid : Nat) (typed : String) (api : ApiResult) :
    Store × AddOutcome :=
  let movies := Storage.get_movies uid s
  if truthyStr (find_exact_key_case_insensitive movies typed) then
    (s, AddOutcome.duplicateRejected)
  else
    match api with
    | ApiResult.success f =>
      match Storage.add_movie s uid f.title f.year f.rating f.poster with
      | (s', none) => (s', AddOutcome.added f.title)
      | (s', some e) => (s', AddOutcome.uncaught e)
    | ApiResult.notFound => (s, AddOutcome.apiNotFoundMsg)
    | ApiResult.unreachable y r =>
      match Storage.add_movie s uid typed y r "" with
      | (s', none) => (s', AddOutcome.added typed)
      | (s', some e) => (s', AddOutcome.uncaught e)

/-- The user-visible outcome of one iteration of the CLI `delete_movie` /
`update_movie` loops: the resolved title was deleted/updated, or the title
did not resolve and the loop re-prompts, or a store exception escaped. -/
inductive CliOutcome where
  | acted (title : String)
  | retryPrompt
  | uncaught (e : StoreError)
deriving DecidableEq, Repr

/-- One iteration of `delete_movie(user_id)` from `main.py`: fetch a fresh
snapshot, resolve the typed title case-insensitively, and delete the
resolved key via the store; an unresolved (or falsy) key re-prompts. -/
def delete_movie (s : Store) (uid : Nat) (typed : String) :
    Store × CliOutcome :=
  let movies := Storage.get_movies uid s
  match find_exact_key_case_insensitive movies typed with
  | some existing =>
    if existing = "" then (s, CliOutcome.retryPrompt)
    else
      match Storage.delete_movie s uid existing with
      | (s', none) => (s', CliOutcome.acted existing)
      | (s', some e) => (s', CliOutcome.uncaught e)
  | none => (s, CliOutcome.retryPrompt)

/-- One iteration of `update_movie(user_id)` from `main.py`: fetch a fresh
snapshot, resolve the typed title case-insensitively, and update the
resolved key's rating via the store. -/
def update_movie (s : Store) (uid : Nat) (typed : String) (rating : Rat) :
    Store × CliOutcome :=
  let movies := Storage.get_movies uid s
  match find_exact_key_case_insensitive movies typed with
  | some existing =>
    if existing = "" then (s, CliOutcome.retryPrompt)
    else
      match Storage.update_movie s uid existing rating with
      | (s', none) => (s', CliOutcome.acted existing)
      | (s', some e) => (s', CliOutcome.uncaught e)
  | none => (s, CliOutcome.retryPrompt)

/-- The statistics record returned by `compute_stats`. -/
structure Stats where
  avg : Rat
  median : Rat
  max : Rat
  min : Rat
  best : List String
  worst : List String
deriving DecidableEq, Repr

/-- One step of Python's `max(iterable)`: keep the accumulator unless the
next element is strictly larger. -/
def pyMax2 (acc x : Rat) : Rat := if acc < x then x else acc

/-- One step of Python's `min(iterable)`: keep the accumulator unless the
next element is strictly smaller. -/
def pyMin2 (acc x : Rat) : Rat := if x < acc then x else acc

/-- `statistics.median(data)` (CPython): sort the data; for odd length take
the middle element, for even length average the two middle elements.
Modelled with the stable `insertionSort`; only applied to non-empty lists
(CPython raises `StatisticsError` on empty data). -/
def median (l : List Rat) : Rat :=
  let s := l.insertionSort (· ≤ ·)
  let n := l.length
  if n % 2 = 1 then s.getD (n / 2) 0
  else (s.getD (n / 2 - 1) 0 + s.getD (n / 2) 0) / 2

/-- `compute_stats(movies)` from `main.py`: `None` on an empty snapshot;
otherwise mean, median, max, min of the ratings and the titles achieving
the max/min (in snapshot order). -/
def compute_stats (movies : MovieData) : Option Stats :=
  match movies with
  | [] => none
  | kv :: rest =>
    let ratings := (kv :: rest).map (fun p => p.2.rating)
    let maxRating := (rest.map (fun p => p.2.rating)).foldl pyMax2 kv.2.rating
    let minRating := (rest.map (fun p => p.2.rating)).foldl pyMin2 kv.2.rating
    some
      { avg := ratings.foldl (· + ·) 0 / (ratings.length : Rat)
        median := median ratings
        max := maxRating
        min := minRating
        best := (((kv :: rest).filter
          (fun p => p.2.rating == maxRating)).map Prod.fst)
        worst := (((kv :: rest).filter
          (fun p => p.2.rating == minRating)).map Prod.fst) }

/-- The pure core of `movies_sorted_by_rating(user_id)`:
`sorted(movies.items(), key=lambda item: item[1]["rating"], reverse=True)`.
Python's `sorted` is a stable sort; with `reverse=True` it orders by rating
descending while equal-rating entries keep their snapshot order, which is
exactly `insertionSort` with the reflexive "rating at least" relation. -/
def movies_sorted_by_rating (movies : MovieData) : MovieData :=
  movies.insertionSort (fun a b => b.2.rating ≤ a.2.rating)

/-- Does `s` start with the characters `sub`? -/
def startsWithChars : List Char → List Char → Bool
  | [], _ => true
  | _ :: _, [] => false
  | a :: as, b :: bs => a == b && startsWithChars as bs

/-- Python's substring containment `sub in s`, on character lists. -/
def hasSubChars (sub : List Char) : List Char → Bool
  | [] => startsWithChars sub []
  | c :: rest => startsWithChars sub (c :: rest) || hasSubChars sub rest

/-- Length of the common prefix of two character lists in which the
characters match pairwise. -/
def matchLen : List Char → List Char → Nat
  | a :: as, b :: bs => if a = b then matchLen as bs + 1 else 0
  | _, _ => 0

/-- The longest matching block between `a` and `b` (as in
`difflib.SequenceMatcher.find_longest_match` with no junk): a triple
`(i, j, k)` such that `a` at `i` and `b` at `j` agree for `k` characters,
with `k` maximal. -/
def bestMatch (a b : List Char) : Nat × Nat × Nat :=
  (List.range a.length).foldl
    (fun best i =>
      (List.range b.length).foldl
        (fun best j =>
          let k := matchLen (a.drop i) (b.drop j)
          if best.2.2 < k then (i, j, k) else best)
        best)
    (0, 0, 0)

/-- Total number of matched characters between `a` and `b` per the
Ratcliff-Obershelp scheme used by `difflib.SequenceMatcher`: take the
longest matching block and recurse on the pieces to its left and right.
The fuel argument (always called with more fuel than `a` is long) makes the
recursion structural. -/
def totalMatches : Nat → List Char → List Char → Nat
  | 0, _, _ => 0
  | fuel + 1, a, b =>
    let best := bestMatch a b
    if best.2.2 = 0 then 0
    else
      totalMatches fuel (a.take best.1) (b.take best.2.1) + best.2.2 +
        totalMatches fuel (a.drop (best.1 + best.2.2))
          (b.drop (best.2.1 + best.2.2))

/-- `difflib.SequenceMatcher(None, a, b).ratio()`: `2 * M / T` where `M` is
the total number of matched characters and `T` the total length; `1` when
both strings are empty. -/
def similarity (a b : String) : Rat :=
  let t := a.data.length + b.data.length
  if t = 0 then 1
  else (2 * (totalMatches (t + 1) a.data b.data : Rat)) / (t : Rat)

/-- `difflib.get_close_matches(word, possibilities, n, cutoff)`: keep the
possibilities whose similarity to `word` reaches the cutoff, rank them by
descending `(score, string)` (the `heapq.nlargest` order on score-string
pairs), and return the first `n`. -/
def get_close_matches (word : String) (possibilities : List String)
    (n : Nat) (cutoff : Rat) : List String :=
  let scored := possibilities.filterMap
    (fun x => if cutoff ≤ similarity x word then some (similarity x word, x)
              else none)
  let ranked := scored.insertionSort
    (fun p q => q.1 < p.1 ∨ (p.1 = q.1 ∧ ¬p.2 < q.2))
  (ranked.take n).map Prod.snd

/-- Result of one run of the CLI `search_movie` flow: either the substring
matches (printed one per line), or the fuzzy suggestions shown after "Film
nicht gefunden." (possibly the empty list). -/
inductive SearchResult where
  | found (entries : MovieData)
  | suggestions (sugg : List String)
deriving DecidableEq, Repr

/-- `search_movie(user_id)` from `main.py`, with the snapshot and the typed
query as parameters: keep the entries whose normalized title contains the
normalized query as a substring; when no entry matches, fall back to
`difflib.get_close_matches(query, movies.keys(), n=5, cutoff=0.6)`. -/
def search_movie (movies : MovieData) (query : String) : SearchResult :=
  let nq := normalize query
  let hits := movies.filter
    (fun kv => hasSubChars nq.data (normalize kv.1).data)
  if hits.isEmpty then
    SearchResult.suggestions
      (get_close_matches query (movies.map Prod.fst) 5 (mkRat 3 5))
  else
    SearchResult.found hits

/-! ### Basic lemmas about the store model -/

theorem hasRow_iff {s : Store} {uid : Nat} {title : String} :
    s.hasRow uid title = true ↔
      ∃ r ∈ s, r.user_id = uid ∧ r.title = title := by
  simp [Store.hasRow, List.any_eq_true]

theorem hasRow_eq_false {s : Store} {uid : Nat} {title : String} :
    s.hasRow uid title = false ↔
      ¬∃ r ∈ s, r.user_id = uid ∧ r.title = title := by
  rw [← hasRow_iff]
  simp

theorem mem_get_movies {kv : String × MovieRecord} {uid : Nat} {s : Store} :
    kv ∈ Storage.get_movies uid s ↔
      ∃ r ∈ s, r.user_id = uid ∧
        kv = (r.title, ⟨r.year, r.rating, r.poster⟩) := by
  simp only [Storage.get_movies, List.mem_map, List.mem_filter, beq_iff_eq]
  constructor
  · rintro ⟨r, ⟨hr, hu⟩, rfl⟩
    exact ⟨r, hr, hu, rfl⟩
  · rintro ⟨r, hr, hu, rfl⟩
    exact ⟨r, ⟨hr, hu⟩, rfl⟩

theorem key_mem_get_movies {k : String} {uid : Nat} {s : Store} :
    k ∈ (Storage.get_movies uid s).map Prod.fst ↔
      ∃ r ∈ s, r.user_id = uid ∧ r.title = k := by
  simp only [List.mem_map]
  constructor
  · rintro ⟨kv, hkv, rfl⟩
    obtain ⟨r, hr, hu, rfl⟩ := mem_get_movies.mp hkv
    exact ⟨r, hr, hu, rfl⟩
  · rintro ⟨r, hr, hu, rfl⟩
    exact ⟨(r.title, ⟨r.year, r.rating, r.poster⟩),
      mem_get_movies.mpr ⟨r, hr, hu, rfl⟩, rfl⟩

theorem length_filter_not_add {α : Type} (p : α → Bool) (l : List α) :
    (l.filter p).length + (l.filter (fun a => !p a)).length = l.length := by
  induction l with
  | nil => rfl
  | cons a l ih =>
    by_cases h : p a = true
    · simp [List.filter_cons, h, ← ih]
      omega
    · simp only [Bool.not_eq_true] at h
      simp [List.filter_cons, h, ← ih]
      omega

/-- Under the `UNIQUE(user_id, title)` constraint, a row matching a present
`(uid, title)` pair is unique: any matching member equals it. -/
theorem wf_match_unique {s : Store} (hwf : s.wf) {row r : MovieRow}
    (hrow : row ∈ s) (hr : r ∈ s)
    (hu : r.user_id = row.user_id) (ht : r.title = row.title) : r = row := by
  by_contra hne
  exact (hwf.forall (fun a b hab => by tauto) hr hrow hne) ⟨hu, ht⟩

/-! ### C2: insert followed by list contains exactly the new record -/

/-- C2.  For every valid `(ownerId, title, year, rating, poster)` such that
no movie with that exact `(ownerId, title)` exists, `insertMovie` followed
by `listMovies(ownerId)` yields a snapshot containing exactly that record
(that year, rating and poster) under that title key. -/
theorem C2_insert_then_list_roundtrip (s : Store) (uid : Nat)
    (title : String) (year : Int) (rating : Rat) (poster : String)
    (h : ¬∃ r ∈ s, r.user_id = uid ∧ r.title = title) :
    ∃ s', Storage.add_movie s uid title year rating poster = (s', none) ∧
      (Storage.get_movies uid s').filter (fun kv => kv.1 == title) =
        [(title, ⟨year, rating, poster⟩)] := by
  have hrow : s.hasRow uid title = false := hasRow_eq_false.mpr h
  refine ⟨s ++ [⟨uid, title, year, rating, poster⟩], ?_, ?_⟩
  · simp [Storage.add_movie, hrow]
  · have hsplit : Storage.get_movies uid (s ++ [⟨uid, title, year, rating, poster⟩]) =
        Storage.get_movies uid s ++ [(title, ⟨year, rating, poster⟩)] := by
      simp [Storage.get_movies, List.filter_append]
    rw [hsplit, List.filter_append]
    have hnil : (Storage.get_movies uid s).filter (fun kv => kv.1 == title) = [] := by
      rw [List.filter_eq_nil_iff]
      intro kv hkv
      obtain ⟨r, hr, hu, rfl⟩ := mem_get_movies.mp hkv
      simp only [beq_iff_eq]
      intro hteq
      exact h ⟨r, hr, hu, hteq⟩
    rw [hnil]
    simp

/-- Closed instance of `C2_insert_then_list_roundtrip` at a concrete store
and record. -/
theorem C2_insert_then_list_roundtrip_witness :
    (¬∃ r ∈ ([⟨1, "Up", 2009, mkRat 82 10, ""⟩] : Store),
        r.user_id = 1 ∧ r.title = "Inception") ∧
    ∃ s', Storage.add_movie [⟨1, "Up", 2009, mkRat 82 10, ""⟩] 1
        "Inception" 2010 (mkRat 88 10) "poster.jpg" = (s', none) ∧
      (Storage.get_movies 1 s').filter (fun kv => kv.1 == "Inception") =
        [("Inception", ⟨2010, mkRat 88 10, "poster.jpg"⟩)] :=
  ⟨by decide,
    C2_insert_then_list_roundtrip [⟨1, "Up", 2009, mkRat 82 10, ""⟩] 1
      "Inception" 2010 (mkRat 88 10) "poster.jpg" (by decide)⟩

/-! ### C3: exact duplicates are rejected; ownership isolation -/

/-- C3.  Inserting a movie when a row with the exact same `(ownerId, title)`
pair already exists fails with `DuplicateMovieError` and leaves the store
unchanged, while inserting the same exact title under a different `ownerId`
(that does not already have it) succeeds. -/
theorem C3_duplicate_insert_and_ownership_isolation (s : Store)
    (uid uid' : Nat) (title : String) (year : Int) (rating : Rat)
    (poster : String)
    (hdup : ∃ r ∈ s, r.user_id = uid ∧ r.title = title)
    (_hne : uid' ≠ uid)
    (hfree : ¬∃ r ∈ s, r.user_id = uid' ∧ r.title = title) :
    Storage.add_movie s uid title year rating poster =
      (s, some StoreError.duplicateMovie) ∧
    Storage.add_movie s uid' title year rating poster =
      (s ++ [⟨uid', title, year, rating, poster⟩], none) := by
  constructor
  · simp [Storage.add_movie, hasRow_iff.mpr hdup]
  · simp [Storage.add_movie, hasRow_eq_false.mpr hfree]

/-- Closed instance of `C3_duplicate_insert_and_ownership_isolation`: owner 1
already has "Inception", so re-inserting it for owner 1 fails while
inserting it for owner 2 succeeds. -/
theorem C3_duplicate_insert_and_ownership_isolation_witness :
    Storage.add_movie [⟨1, "Inception", 2010, mkRat 88 10, ""⟩] 1
      "Inception" 2010 (mkRat 88 10) "" =
        ([⟨1, "Inception", 2010, mkRat 88 10, ""⟩],
          some StoreError.duplicateMovie) ∧
    Storage.add_movie [⟨1, "Inception", 2010, mkRat 88 10, ""⟩] 2
      "Inception" 2010 (mkRat 88 10) "" =
        ([⟨1, "Inception", 2010, mkRat 88 10, ""⟩,
          ⟨2, "Inception", 2010, mkRat 88 10, ""⟩], none) :=
  C3_duplicate_insert_and_ownership_isolation
    [⟨1, "Inception", 2010, mkRat 88 10, ""⟩] 1 2 "Inception" 2010
    (mkRat 88 10) "" (by decide) (by decide) (by decide)

/-! ### C4: delete and update raise NotFoundError exactly on a lookup miss -/

theorem match_iff_eq_row {s : Store} {uid : Nat} {t : String}
    (hwf : s.wf) {row r : MovieRow} (hrow : row ∈ s) (hr : r ∈ s)
    (hu : row.user_id = uid) (ht : row.title = t) :
    (r.user_id == uid && r.title == t) = (r == row) := by
  rw [Bool.eq_iff_iff]
  simp only [Bool.and_eq_true, beq_iff_eq]
  constructor
  · rintro ⟨h1, h2⟩
    exact wf_match_unique hwf hrow hr (h1.trans hu.symm) (h2.trans ht.symm)
  · rintro rfl
    exact ⟨hu, ht⟩

theorem delete_cond_iff {s : Store} {uid : Nat} {t : String} :
    ((s.filter (fun r => !(r.user_id == uid && r.title == t))).length
        == s.length) = true ↔
      ¬∃ r ∈ s, r.user_id = uid ∧ r.title = t := by
  rw [beq_iff_eq]
  constructor
  · rintro hlen ⟨r, hr, hu, ht⟩
    have hall := List.filter_eq_self.mp
      (List.Sublist.eq_of_length (List.filter_sublist s) hlen)
    have := hall r hr
    simp [hu, ht] at this
  · intro hno
    rw [List.filter_eq_self.mpr]
    intro r hr
    have h2 : ¬(r.user_id = uid ∧ r.title = t) := fun hc => hno ⟨r, hr, hc⟩
    by_cases h1 : r.user_id = uid
    · have h3 : r.title ≠ t := fun h4 => h2 ⟨h1, h4⟩
      simp [h1, h3]
    · simp [h1]

/-- C4.  `deleteMovie` and `updateMovieRating` raise `NotFoundError` if and
only if no row with the exact `(ownerId, title)` pair exists (they never
silently no-op); when such a row exists in a store satisfying the
uniqueness constraint, the operation succeeds and affects exactly that row:
delete removes precisely it, update changes precisely its rating. -/
theorem C4_delete_update_notFound_iff (s : Store) (uid : Nat) (t : String)
    (newR : Rat) :
    ((Storage.delete_movie s uid t).2 = some StoreError.notFound ↔
      ¬∃ r ∈ s, r.user_id = uid ∧ r.title = t) ∧
    ((Storage.update_movie s uid t newR).2 = some StoreError.notFound ↔
      ¬∃ r ∈ s, r.user_id = uid ∧ r.title = t) ∧
    (∀ row ∈ s, s.wf → row.user_id = uid → row.title = t →
      Storage.delete_movie s uid t =
        (s.filter (fun r => !(r == row)), none) ∧
      Storage.update_movie s uid t newR =
        (s.map (fun r => if r == row then { row with rating := newR } else r),
          none)) := by
  refine ⟨?_, ?_, ?_⟩
  · by_cases hc : ((s.filter
        (fun r => !(r.user_id == uid && r.title == t))).length
          == s.length) = true
    · simp only [Storage.delete_movie, hc, if_true]
      simpa using delete_cond_iff.mp hc
    · simp only [Bool.not_eq_true] at hc
      have h3 : ¬((s.filter
          (fun r => !(r.user_id == uid && r.title == t))).length
            == s.length) = true := by rw [hc]; simp
      simp only [Storage.delete_movie, hc, Bool.false_eq_true, if_false]
      have := (not_iff_not.mpr (@delete_cond_iff s uid t)).mp h3
      simpa using this
  · by_cases hc : s.hasRow uid t = true
    · simp only [Storage.update_movie, hc, if_true]
      simpa using hasRow_iff.mp hc
    · simp only [Bool.not_eq_true] at hc
      simp only [Storage.update_movie, hc, Bool.false_eq_true, if_false]
      simpa using hasRow_eq_false.mp hc
  · intro row hrow hwf hu ht
    constructor
    · have hlt : (s.filter
          (fun r => !(r.user_id == uid && r.title == t))).length < s.length :=
        List.length_filter_lt_length_iff_exists.mpr
          ⟨row, hrow, by simp [hu, ht]⟩
      have hc : ((s.filter
          (fun r => !(r.user_id == uid && r.title == t))).length
            == s.length) = false := by
        simpa using Nat.ne_of_lt hlt
      simp only [Storage.delete_movie, hc, Bool.false_eq_true, if_false]
      congr 1
      exact List.filter_congr (fun r hr => by
        rw [match_iff_eq_row hwf hrow hr hu ht])
    · have hc : s.hasRow uid t = true := hasRow_iff.mpr ⟨row, hrow, hu, ht⟩
      simp only [Storage.update_movie, hc, if_true]
      congr 1
      refine List.map_congr_left (fun r hr => ?_)
      rw [match_iff_eq_row hwf hrow hr hu ht]
      by_cases he : (r == row) = true
      · have : r = row := by simpa using he
        subst this
        simp [he]
      · simp only [Bool.not_eq_true] at he
        simp [he]

/-- Closed instance of the effect part of `C4_delete_update_notFound_iff`
on a one-row store. -/
theorem C4_delete_update_notFound_iff_witness :
    Storage.delete_movie [⟨1, "A", 2000, mkRat 7 1, ""⟩] 1 "A" =
      (([⟨1, "A", 2000, mkRat 7 1, ""⟩] : Store).filter
        (fun r => !(r == ⟨1, "A", 2000, mkRat 7 1, ""⟩)), none) ∧
    Storage.update_movie [⟨1, "A", 2000, mkRat 7 1, ""⟩] 1 "A" (mkRat 9 1) =
      (([⟨1, "A", 2000, mkRat 7 1, ""⟩] : Store).map
        (fun r => if r == ⟨1, "A", 2000, mkRat 7 1, ""⟩ then
          { (⟨1, "A", 2000, mkRat 7 1, ""⟩ : MovieRow) with
              rating := mkRat 9 1 }
        else r), none) :=
  (C4_delete_update_notFound_iff [⟨1, "A", 2000, mkRat 7 1, ""⟩] 1 "A"
      (mkRat 9 1)).2.2 ⟨1, "A", 2000, mkRat 7 1, ""⟩ (by decide) (by decide)
    rfl rfl

/-! ### C8: updating a rating changes exactly that field of that record -/

/-- C8.  For every record present in the store, updating its rating via
`updateMovieRating` and then listing the owner's movies yields a snapshot
in which that title carries the new rating while its year and poster are
unchanged, and every other record (and the snapshot order) is unchanged. -/
theorem C8_update_rating_frame (s : Store) (uid : Nat) (t : String)
    (rec : MovieRecord) (newR : Rat)
    (h : (t, rec) ∈ Storage.get_movies uid s) :
    ∃ s', Storage.update_movie s uid t newR = (s', none) ∧
      Storage.get_movies uid s' =
        (Storage.get_movies uid s).map
          (fun kv => if kv.1 = t then (kv.1, { kv.2 with rating := newR })
                     else kv) ∧
      (t, { rec with rating := newR }) ∈ Storage.get_movies uid s' := by
  obtain ⟨r, hr, hu, hkv⟩ := mem_get_movies.mp h
  have ht : r.title = t := (congrArg Prod.fst hkv).symm
  have hc : s.hasRow uid t = true := hasRow_iff.mpr ⟨r, hr, hu, ht⟩
  have heq : Storage.get_movies uid (s.map fun rr =>
      if rr.user_id == uid && rr.title == t then { rr with rating := newR }
      else rr) =
      (Storage.get_movies uid s).map
        (fun kv => if kv.1 = t then (kv.1, { kv.2 with rating := newR })
                   else kv) := by
    unfold Storage.get_movies
    rw [List.filter_map]
    have hfc : List.filter ((fun r : MovieRow => r.user_id == uid) ∘ fun rr =>
        if rr.user_id == uid && rr.title == t then { rr with rating := newR }
        else rr) s = List.filter (fun r : MovieRow => r.user_id == uid) s :=
      List.filter_congr (fun rr _ => by
        by_cases hif : (rr.user_id == uid && rr.title == t) = true
        · simp only [Function.comp_apply, hif, if_true]
        · simp only [Bool.not_eq_true] at hif
          simp only [Function.comp_apply, hif, Bool.false_eq_true, if_false])
    rw [hfc, List.map_map, List.map_map]
    refine List.map_congr_left (fun rr hrr => ?_)
    have hru : rr.user_id = uid := by
      have := (List.mem_filter.mp hrr).2
      simpa using this
    by_cases htt : rr.title = t
    · simp [Function.comp_apply, hru, htt]
    · simp [Function.comp_apply, hru, htt]
  refine ⟨_, by simp only [Storage.update_movie, hc, if_true], heq, ?_⟩
  rw [heq]
  have hmem := List.mem_map_of_mem
    (fun kv : String × MovieRecord =>
      if kv.1 = t then (kv.1, { kv.2 with rating := newR }) else kv) h
  simpa using hmem

/-- Closed instance of `C8_update_rating_frame` on a two-movie store. -/
theorem C8_update_rating_frame_witness :
    ("A", (⟨2000, mkRat 7 1, "p"⟩ : MovieRecord)) ∈
      Storage.get_movies 1
        [⟨1, "A", 2000, mkRat 7 1, "p"⟩, ⟨1, "B", 2001, mkRat 5 1, "q"⟩] ∧
    ∃ s', Storage.update_movie
        [⟨1, "A", 2000, mkRat 7 1, "p"⟩, ⟨1, "B", 2001, mkRat 5 1, "q"⟩] 1
        "A" (mkRat 9 1) = (s', none) ∧
      Storage.get_movies 1 s' =
        (Storage.get_movies 1
          [⟨1, "A", 2000, mkRat 7 1, "p"⟩, ⟨1, "B", 2001, mkRat 5 1, "q"⟩]).map
          (fun kv => if kv.1 = "A" then
            (kv.1, { kv.2 with rating := mkRat 9 1 }) else kv) ∧
      ("A", { (⟨2000, mkRat 7 1, "p"⟩ : MovieRecord) with
          rating := mkRat 9 1 }) ∈ Storage.get_movies 1 s' :=
  ⟨by decide,
    C8_update_rating_frame
      [⟨1, "A", 2000, mkRat 7 1, "p"⟩, ⟨1, "B", 2001, mkRat 5 1, "q"⟩] 1 "A"
      ⟨2000, mkRat 7 1, "p"⟩ (mkRat 9 1) (by decide)⟩

/-! ### C5: case-insensitive title resolution -/

theorem find?_first {α : Type} {p : α → Bool} :
    ∀ {l : List α} {a : α}, l.find? p = some a →
      ∃ l₁ l₂, l = l₁ ++ a :: l₂ ∧ ∀ x ∈ l₁, p x = false := by
  intro l
  induction l with
  | nil => intro a h; cases h
  | cons b l ih =>
    intro a h
    by_cases hb : p b = true
    · rw [List.find?_cons_of_pos l hb] at h
      obtain rfl : b = a := by injection h
      exact ⟨[], l, rfl, by simp⟩
    · rw [List.find?_cons_of_neg l hb] at h
      obtain ⟨l₁, l₂, rfl, hall⟩ := ih h
      refine ⟨b :: l₁, l₂, rfl, ?_⟩
      intro x hx
      rcases List.mem_cons.mp hx with rfl | hx'
      · simpa using hb
      · exact hall x hx'

/-- C5.  Case-insensitive title resolution normalizes both the query and
each stored key by trimming whitespace and lowercasing, and returns the
first stored key whose normalization equals the normalized query, or
absent if none matches; in particular, on a snapshot holding "Inception",
resolving "INCEPTION " (trailing space) returns the stored key
"Inception". -/
theorem C5_case_insensitive_resolution :
    (∀ (m : MovieData) (q : String),
      (∀ k, find_exact_key_case_insensitive m q = some k →
        k ∈ m.map Prod.fst ∧ normalize k = normalize q ∧
        ∃ l₁ l₂, m.map Prod.fst = l₁ ++ k :: l₂ ∧
          ∀ k' ∈ l₁, normalize k' ≠ normalize q) ∧
      (find_exact_key_case_insensitive m q = none ↔
        ∀ k ∈ m.map Prod.fst, normalize k ≠ normalize q)) ∧
    find_exact_key_case_insensitive
      [("Inception", ⟨2010, mkRat 88 10, ""⟩)] "INCEPTION " =
        some "Inception" := by
  refine ⟨fun m q => ⟨fun k hk => ?_, ?_⟩, by decide⟩
  · simp only [find_exact_key_case_insensitive] at hk
    refine ⟨List.mem_of_find?_eq_some hk, ?_, ?_⟩
    · have := List.find?_some hk
      simpa using this
    · obtain ⟨l₁, l₂, heq, hall⟩ := find?_first hk
      exact ⟨l₁, l₂, heq, fun k' hk' => by simpa using hall k' hk'⟩
  · simp only [find_exact_key_case_insensitive, List.find?_eq_none,
      beq_iff_eq]

/-- Closed instance of `C5_case_insensitive_resolution`: the resolved key
"Inception" is literally stored, normalizes like the query, and no earlier
key matches. -/
theorem C5_case_insensitive_resolution_witness :
    "Inception" ∈
      ([("Inception", ⟨2010, mkRat 88 10, ""⟩)] : MovieData).map Prod.fst ∧
    normalize "Inception" = normalize "INCEPTION " ∧
    ∃ l₁ l₂,
      ([("Inception", ⟨2010, mkRat 88 10, ""⟩)] : MovieData).map Prod.fst =
        l₁ ++ "Inception" :: l₂ ∧
      ∀ k' ∈ l₁, normalize k' ≠ normalize "INCEPTION " :=
  (C5_case_insensitive_resolution.1
    [("Inception", ⟨2010, mkRat 88 10, ""⟩)] "INCEPTION ").1 "Inception"
    (by decide)

/-! ### C10: resolved keys are stored keys; the CLI never hits NotFound -/

/-- C10.  Whenever `find_exact_key_case_insensitive` returns a title, that
title is literally a key of the given snapshot; consequently one iteration
of the CLI delete and update flows - which resolve against a fresh
snapshot of the same store they then mutate - either re-prompts or acts on
a stored title, and never lets the store's `NotFoundError` escape. -/
theorem C10_resolved_key_is_stored_key :
    (∀ (m : MovieData) (q k : String),
      find_exact_key_case_insensitive m q = some k → k ∈ m.map Prod.fst) ∧
    (∀ (s : Store) (uid : Nat) (typed : String),
      (delete_movie s uid typed).2 = CliOutcome.retryPrompt ∨
      ∃ k, (delete_movie s uid typed).2 = CliOutcome.acted k) ∧
    (∀ (s : Store) (uid : Nat) (typed : String) (r : Rat),
      (update_movie s uid typed r).2 = CliOutcome.retryPrompt ∨
      ∃ k, (update_movie s uid typed r).2 = CliOutcome.acted k) := by
  have hfind : ∀ (m : MovieData) (q k : String),
      find_exact_key_case_insensitive m q = some k → k ∈ m.map Prod.fst := by
    intro m q k hk
    simp only [find_exact_key_case_insensitive] at hk
    exact List.mem_of_find?_eq_some hk
  refine ⟨hfind, ?_, ?_⟩
  · intro s uid typed
    cases hf : find_exact_key_case_insensitive
        (Storage.get_movies uid s) typed with
    | none => left; simp [delete_movie, hf]
    | some k =>
      by_cases hke : k = ""
      · left; simp [delete_movie, hf, hke]
      · right
        refine ⟨k, ?_⟩
        obtain ⟨row, hrow, hu, ht⟩ :=
          key_mem_get_movies.mp (hfind _ _ _ hf)
        have hlt : (s.filter
            (fun r => !(r.user_id == uid && r.title == k))).length <
              s.length :=
          List.length_filter_lt_length_iff_exists.mpr
            ⟨row, hrow, by simp [hu, ht]⟩
        have hc : ((s.filter
            (fun r => !(r.user_id == uid && r.title == k))).length
              == s.length) = false := by
          simpa using Nat.ne_of_lt hlt
        have hdel : Storage.delete_movie s uid k =
            (s.filter (fun r => !(r.user_id == uid && r.title == k)), none) := by
          simp only [Storage.delete_movie, hc, Bool.false_eq_true, if_false]
        simp [delete_movie, hf, hke, hdel]
  · intro s uid typed r
    cases hf : find_exact_key_case_insensitive
        (Storage.get_movies uid s) typed with
    | none => left; simp [update_movie, hf]
    | some k =>
      by_cases hke : k = ""
      · left; simp [update_movie, hf, hke]
      · right
        refine ⟨k, ?_⟩
        obtain ⟨row, hrow, hu, ht⟩ :=
          key_mem_get_movies.mp (hfind _ _ _ hf)
        have hc : s.hasRow uid k = true := hasRow_iff.mpr ⟨row, hrow, hu, ht⟩
        simp [update_movie, hf, hke, Storage.update_movie, hc]

/-- Closed instance of `C10_resolved_key_is_stored_key`: the key resolved
for the typed query "the matrix " is a stored key of the snapshot. -/
theorem C10_resolved_key_is_stored_key_witness :
    "The Matrix" ∈
      ([("Inception", ⟨2010, mkRat 88 10, ""⟩),
        ("The Matrix", ⟨1999, mkRat 87 10, ""⟩)] : MovieData).map Prod.fst :=
  C10_resolved_key_is_stored_key.1
    [("Inception", ⟨2010, mkRat 88 10, ""⟩),
      ("The Matrix", ⟨1999, mkRat 87 10, ""⟩)] "the matrix " "The Matrix"
    (by decide)

/-! ### C1: the CLI add flow can crash on an API-resolved duplicate title -/

/-- C1 (refuting evaluation).  Owner 1 already has "Inception".  The user
types "incep": the case-insensitive duplicate check against the fresh
snapshot passes (no stored key normalizes to "incep"), but OMDb resolves
the query to the title "Inception", whose exact `(ownerId, title)` pair is
already stored.  The store insert therefore fails with
`DuplicateMovieError`, which `add_movie` does not catch: the error escapes
and terminates the process, contradicting the claim that the
duplicate-error branch is unreachable after a passed check. -/
theorem C1_add_movie_resolved_title_crash :
    truthyStr (find_exact_key_case_insensitive
      (Storage.get_movies 1 [⟨1, "Inception", 2010, mkRat 88 10, ""⟩])
      "incep") = false ∧
    add_movie [⟨1, "Inception", 2010, mkRat 88 10, ""⟩] 1 "incep"
      (ApiResult.success ⟨"Inception", 2010, mkRat 88 10, ""⟩) =
      ([⟨1, "Inception", 2010, mkRat 88 10, ""⟩],
        AddOutcome.uncaught StoreError.duplicateMovie) :=
  ⟨by decide, by decide⟩

/-! ### C6: statistics over a snapshot -/

theorem le_pyMax2_left (a x : Rat) : a ≤ pyMax2 a x := by
  unfold pyMax2
  by_cases h : a < x
  · rw [if_pos h]; exact le_of_lt h
  · rw [if_neg h]

theorem le_pyMax2_right (a x : Rat) : x ≤ pyMax2 a x := by
  unfold pyMax2
  by_cases h : a < x
  · rw [if_pos h]
  · rw [if_neg h]; exact le_of_not_lt h

theorem pyMax2_cases (a x : Rat) : pyMax2 a x = a ∨ pyMax2 a x = x := by
  unfold pyMax2
  by_cases h : a < x
  · right; rw [if_pos h]
  · left; rw [if_neg h]

theorem pyMin2_le_left (a x : Rat) : pyMin2 a x ≤ a := by
  unfold pyMin2
  by_cases h : x < a
  · rw [if_pos h]; exact le_of_lt h
  · rw [if_neg h]

theorem pyMin2_le_right (a x : Rat) : pyMin2 a x ≤ x := by
  unfold pyMin2
  by_cases h : x < a
  · rw [if_pos h]
  · rw [if_neg h]; exact le_of_not_lt h

theorem pyMin2_cases (a x : Rat) : pyMin2 a x = a ∨ pyMin2 a x = x := by
  unfold pyMin2
  by_cases h : x < a
  · right; rw [if_pos h]
  · left; rw [if_neg h]

theorem le_foldl_pyMax2 : ∀ (l : List Rat) (a : Rat), a ≤ l.foldl pyMax2 a := by
  intro l
  induction l with
  | nil => intro a; exact le_refl a
  | cons x l ih =>
    intro a
    exact le_trans (le_pyMax2_left a x) (ih (pyMax2 a x))

theorem foldl_pyMax2_ge_mem :
    ∀ (l : List Rat) (a x : Rat), x ∈ l → x ≤ l.foldl pyMax2 a := by
  intro l
  induction l with
  | nil => intro a x hx; cases hx
  | cons y l ih =>
    intro a x hx
    rcases List.mem_cons.mp hx with rfl | hx'
    · exact le_trans (le_pyMax2_right a x) (le_foldl_pyMax2 l (pyMax2 a x))
    · exact ih (pyMax2 a y) x hx'

theorem foldl_pyMax2_mem :
    ∀ (l : List Rat) (a : Rat), l.foldl pyMax2 a = a ∨ l.foldl pyMax2 a ∈ l := by
  intro l
  induction l with
  | nil => intro a; left; rfl
  | cons x l ih =>
    intro a
    rcases ih (pyMax2 a x) with h | h
    · rcases pyMax2_cases a x with h2 | h2
      · left; rw [List.foldl_cons, h, h2]
      · right; rw [List.foldl_cons, h, h2]; exact List.mem_cons_self x l
    · right; exact List.mem_cons_of_mem x h

theorem foldl_pyMin2_le : ∀ (l : List Rat) (a : Rat), l.foldl pyMin2 a ≤ a := by
  intro l
  induction l with
  | nil => intro a; exact le_refl a
  | cons x l ih =>
    intro a
    exact le_trans (ih (pyMin2 a x)) (pyMin2_le_left a x)

theorem foldl_pyMin2_le_mem :
    ∀ (l : List Rat) (a x : Rat), x ∈ l → l.foldl pyMin2 a ≤ x := by
  intro l
  induction l with
  | nil => intro a x hx; cases hx
  | cons y l ih =>
    intro a x hx
    rcases List.mem_cons.mp hx with rfl | hx'
    · exact le_trans (foldl_pyMin2_le l (pyMin2 a x)) (pyMin2_le_right a x)
    · exact ih (pyMin2 a y) x hx'

theorem foldl_pyMin2_mem :
    ∀ (l : List Rat) (a : Rat), l.foldl pyMin2 a = a ∨ l.foldl pyMin2 a ∈ l := by
  intro l
  induction l with
  | nil => intro a; left; rfl
  | cons x l ih =>
    intro a
    rcases ih (pyMin2 a x) with h | h
    · rcases pyMin2_cases a x with h2 | h2
      · left; rw [List.foldl_cons, h, h2]
      · right; rw [List.foldl_cons, h, h2]; exact List.mem_cons_self x l
    · right; exact List.mem_cons_of_mem x h

theorem foldl_add_eq_sum : ∀ (l : List Rat) (a : Rat),
    l.foldl (· + ·) a = a + l.sum := by
  intro l
  induction l with
  | nil => intro a; simp
  | cons x l ih =>
    intro a
    rw [List.foldl_cons, ih (a + x), List.sum_cons, add_assoc]

/-- C6.  `computeStatistics` returns absent on the empty snapshot (never an
error); on a non-empty snapshot it returns mean = sum of ratings / count,
the median of a sorted permutation of the ratings per the standard
definition (average of the two middle values for even counts), max and min
ratings attained by the snapshot, and best/worst title lists holding
exactly the titles whose rating equals the maximum/minimum; on
`{A:8.0, B:9.0, C:9.0}` it returns mean = 8.67 (within 0.01), median = 9,
max = 9, best = {B, C}, min = 8, worst = {A}. -/
theorem C6_compute_stats_spec :
    compute_stats [] = none ∧
    (∀ m : MovieData, m ≠ [] →
      ∃ st, compute_stats m = some st ∧
        st.avg = (m.map (fun kv => kv.2.rating)).sum / (m.length : Rat) ∧
        (∃ sortedR : List Rat,
          sortedR.Perm (m.map fun kv => kv.2.rating) ∧
          sortedR.Sorted (· ≤ ·) ∧
          st.median = (if m.length % 2 = 1 then sortedR.getD (m.length / 2) 0
            else (sortedR.getD (m.length / 2 - 1) 0 +
              sortedR.getD (m.length / 2) 0) / 2)) ∧
        (∀ x ∈ m.map (fun kv => kv.2.rating), x ≤ st.max ∧ st.min ≤ x) ∧
        st.max ∈ m.map (fun kv => kv.2.rating) ∧
        st.min ∈ m.map (fun kv => kv.2.rating) ∧
        (∀ t, t ∈ st.best ↔ ∃ rec, (t, rec) ∈ m ∧ rec.rating = st.max) ∧
        (∀ t, t ∈ st.worst ↔ ∃ rec, (t, rec) ∈ m ∧ rec.rating = st.min)) ∧
    (∃ st, compute_stats
        [("A", ⟨0, 8, ""⟩), ("B", ⟨0, 9, ""⟩), ("C", ⟨0, 9, ""⟩)] = some st ∧
      |st.avg - 867 / 100| ≤ 1 / 100 ∧ st.median = 9 ∧ st.max = 9 ∧
      st.min = 8 ∧ st.best = ["B", "C"] ∧ st.worst = ["A"]) := by
  refine ⟨rfl, ?_, ?_⟩
  · intro m hm
    obtain ⟨kv, rest, rfl⟩ := List.exists_cons_of_ne_nil hm
    refine ⟨_, rfl, ?_, ?_, ?_, ?_, ?_, ?_, ?_⟩
    · show (((kv :: rest).map fun p => p.2.rating).foldl (· + ·) 0) /
          ((((kv :: rest).map fun p => p.2.rating).length : Nat) : Rat) = _
      rw [foldl_add_eq_sum, zero_add, List.length_map]
    · refine ⟨((kv :: rest).map fun p => p.2.rating).insertionSort (· ≤ ·),
        List.perm_insertionSort _ _, List.sorted_insertionSort _ _, ?_⟩
      show median ((kv :: rest).map fun p => p.2.rating) = _
      unfold median
      rw [List.length_map]
    · intro x hx
      rw [List.map_cons] at hx
      rcases List.mem_cons.mp hx with h | h
      · constructor
        · show x ≤ (rest.map fun p => p.2.rating).foldl pyMax2 kv.2.rating
          rw [h]
          exact le_foldl_pyMax2 _ _
        · show (rest.map fun p => p.2.rating).foldl pyMin2 kv.2.rating ≤ x
          rw [h]
          exact foldl_pyMin2_le _ _
      · exact ⟨foldl_pyMax2_ge_mem _ _ x h, foldl_pyMin2_le_mem _ _ x h⟩
    · show (rest.map fun p => p.2.rating).foldl pyMax2 kv.2.rating ∈
        (kv :: rest).map fun p => p.2.rating
      rcases foldl_pyMax2_mem (rest.map fun p => p.2.rating) kv.2.rating
        with h | h
      · rw [h, List.map_cons]; exact List.mem_cons_self _ _
      · rw [List.map_cons]; exact List.mem_cons_of_mem _ h
    · show (rest.map fun p => p.2.rating).foldl pyMin2 kv.2.rating ∈
        (kv :: rest).map fun p => p.2.rating
      rcases foldl_pyMin2_mem (rest.map fun p => p.2.rating) kv.2.rating
        with h | h
      · rw [h, List.map_cons]; exact List.mem_cons_self _ _
      · rw [List.map_cons]; exact List.mem_cons_of_mem _ h
    · intro t
      show t ∈ ((kv :: rest).filter fun p => p.2.rating ==
          (rest.map fun p => p.2.rating).foldl pyMax2 kv.2.rating).map
            Prod.fst ↔ _
      simp only [List.mem_map, List.mem_filter, beq_iff_eq]
      constructor
      · rintro ⟨⟨t1, rec⟩, ⟨hmem, hrat⟩, rfl⟩
        exact ⟨rec, hmem, hrat⟩
      · rintro ⟨rec, hmem, hrat⟩
        exact ⟨(t, rec), ⟨hmem, hrat⟩, rfl⟩
    · intro t
      show t ∈ ((kv :: rest).filter fun p => p.2.rating ==
          (rest.map fun p => p.2.rating).foldl pyMin2 kv.2.rating).map
            Prod.fst ↔ _
      simp only [List.mem_map, List.mem_filter, beq_iff_eq]
      constructor
      · rintro ⟨⟨t1, rec⟩, ⟨hmem, hrat⟩, rfl⟩
        exact ⟨rec, hmem, hrat⟩
      · rintro ⟨rec, hmem, hrat⟩
        exact ⟨(t, rec), ⟨hmem, hrat⟩, rfl⟩
  · refine ⟨_, rfl, ?_, by decide, by decide, by decide, by decide, by decide⟩
    rw [abs_le]
    constructor
    · show -(1 / 100 : Rat) ≤
        ((((0 : Rat) + 8) + 9) + 9) / ((3 : Nat) : Rat) - 867 / 100
      norm_num
    · show ((((0 : Rat) + 8) + 9) + 9) / ((3 : Nat) : Rat) - 867 / 100 ≤
        1 / 100
      norm_num

/-- Closed instance of `C6_compute_stats_spec` on a two-movie snapshot. -/
theorem C6_compute_stats_spec_witness :
    ([("A", ⟨0, 8, ""⟩), ("B", ⟨0, 9, ""⟩)] : MovieData) ≠ [] ∧
    ∃ st, compute_stats [("A", ⟨0, 8, ""⟩), ("B", ⟨0, 9, ""⟩)] = some st ∧
      st.avg = (([("A", ⟨0, 8, ""⟩), ("B", ⟨0, 9, ""⟩)] : MovieData).map
        (fun kv => kv.2.rating)).sum /
          ((([("A", ⟨0, 8, ""⟩), ("B", ⟨0, 9, ""⟩)] : MovieData).length :
            Nat) : Rat) ∧
      (∃ sortedR : List Rat,
        sortedR.Perm (([("A", ⟨0, 8, ""⟩), ("B", ⟨0, 9, ""⟩)] :
          MovieData).map fun kv => kv.2.rating) ∧
        sortedR.Sorted (· ≤ ·) ∧
        st.median = (if (2 : Nat) % 2 = 1 then sortedR.getD (2 / 2) 0
          else (sortedR.getD (2 / 2 - 1) 0 + sortedR.getD (2 / 2) 0) / 2)) ∧
      (∀ x ∈ ([("A", ⟨0, 8, ""⟩), ("B", ⟨0, 9, ""⟩)] : MovieData).map
          (fun kv => kv.2.rating), x ≤ st.max ∧ st.min ≤ x) ∧
      st.max ∈ ([("A", ⟨0, 8, ""⟩), ("B", ⟨0, 9, ""⟩)] : MovieData).map
        (fun kv => kv.2.rating) ∧
      st.min ∈ ([("A", ⟨0, 8, ""⟩), ("B", ⟨0, 9, ""⟩)] : MovieData).map
        (fun kv => kv.2.rating) ∧
      (∀ t, t ∈ st.best ↔ ∃ rec,
        (t, rec) ∈ ([("A", ⟨0, 8, ""⟩), ("B", ⟨0, 9, ""⟩)] : MovieData) ∧
        rec.rating = st.max) ∧
      (∀ t, t ∈ st.worst ↔ ∃ rec,
        (t, rec) ∈ ([("A", ⟨0, 8, ""⟩), ("B", ⟨0, 9, ""⟩)] : MovieData) ∧
        rec.rating = st.min) :=
  ⟨by decide, C6_compute_stats_spec.2.1
    [("A", ⟨0, 8, ""⟩), ("B", ⟨0, 9, ""⟩)] (by decide)⟩

/-! ### C7: stable descending sort by rating -/

/-- C7.  `sortByRatingDescending` returns a permutation of the snapshot's
entries ordered by rating descending, and the sort is stable: for every
rating value, the entries carrying it appear in the output in exactly their
snapshot order; on `{X:5, Y:9, Z:9}` it yields Y then Z before X. -/
theorem C7_sort_by_rating_desc_stable :
    (∀ m : MovieData,
      (movies_sorted_by_rating m).Perm m ∧
      (movies_sorted_by_rating m).Sorted
        (fun a b => b.2.rating ≤ a.2.rating) ∧
      (∀ x : Rat, (movies_sorted_by_rating m).filter
          (fun kv => kv.2.rating == x) =
        m.filter (fun kv => kv.2.rating == x))) ∧
    movies_sorted_by_rating
        [("X", ⟨0, 5, ""⟩), ("Y", ⟨0, 9, ""⟩), ("Z", ⟨0, 9, ""⟩)] =
      [("Y", ⟨0, 9, ""⟩), ("Z", ⟨0, 9, ""⟩), ("X", ⟨0, 5, ""⟩)] := by
  have htotal : IsTotal (String × MovieRecord)
      (fun a b => b.2.rating ≤ a.2.rating) :=
    ⟨fun a b => (le_total b.2.rating a.2.rating)⟩
  have htrans : IsTrans (String × MovieRecord)
      (fun a b => b.2.rating ≤ a.2.rating) :=
    ⟨fun _ _ _ hab hbc => le_trans hbc hab⟩
  refine ⟨fun m => ⟨List.perm_insertionSort _ m,
    @List.sorted_insertionSort _ _ _ htotal htrans m, fun x => ?_⟩,
    by decide⟩
  have hperm : ((movies_sorted_by_rating m).filter
      (fun kv => kv.2.rating == x)).Perm
        (m.filter (fun kv => kv.2.rating == x)) :=
    (List.perm_insertionSort _ m).filter _
  have hpw : (m.filter (fun kv => kv.2.rating == x)).Pairwise
      (fun a b => b.2.rating ≤ a.2.rating) := by
    refine List.pairwise_of_forall_mem_list (fun a ha b hb => ?_)
    have ha2 := (List.mem_filter.mp ha).2
    have hb2 := (List.mem_filter.mp hb).2
    rw [beq_iff_eq] at ha2 hb2
    rw [ha2, hb2]
  have hsub : (m.filter (fun kv => kv.2.rating == x)).Sublist
      (movies_sorted_by_rating m) :=
    List.sublist_insertionSort hpw (List.filter_sublist m)
  have hself : ((m.filter (fun kv => kv.2.rating == x)).filter
      (fun kv => kv.2.rating == x)) = m.filter (fun kv => kv.2.rating == x) :=
    List.filter_eq_self.mpr (fun a ha => (List.mem_filter.mp ha).2)
  have hsub2 := List.Sublist.filter
    (fun kv : String × MovieRecord => kv.2.rating == x) hsub
  rw [hself] at hsub2
  exact (hsub2.eq_of_length hperm.length_eq.symm).symm

/-! ### C9: substring search with fuzzy fallback -/

theorem startsWithChars_iff :
    ∀ (sub s : List Char), startsWithChars sub s = true ↔
      ∃ t, s = sub ++ t := by
  intro sub
  induction sub with
  | nil => intro s; simp [startsWithChars]
  | cons a as ih =>
    intro s
    cases s with
    | nil =>
      simp only [startsWithChars]
      constructor
      · intro h; cases h
      · rintro ⟨t, ht⟩; cases ht
    | cons b bs =>
      simp only [startsWithChars, Bool.and_eq_true, beq_iff_eq, ih bs]
      constructor
      · rintro ⟨rfl, t, rfl⟩
        exact ⟨t, rfl⟩
      · rintro ⟨t, ht⟩
        rw [List.cons_append] at ht
        injection ht with h1 h2
        exact ⟨h1.symm, t, h2⟩

theorem hasSubChars_iff :
    ∀ (sub s : List Char), hasSubChars sub s = true ↔
      ∃ l₁ l₂, s = l₁ ++ sub ++ l₂ := by
  intro sub s
  induction s with
  | nil =>
    simp only [hasSubChars, startsWithChars_iff]
    constructor
    · rintro ⟨t, ht⟩
      exact ⟨[], t, by simpa using ht⟩
    · rintro ⟨l₁, l₂, h⟩
      have h3 : l₁ = [] ∧ sub = [] ∧ l₂ = [] := by
        simpa [List.append_assoc] using h.symm
      exact ⟨[], by simp [h3.2.1]⟩
  | cons c rest ih =>
    simp only [hasSubChars, Bool.or_eq_true, startsWithChars_iff, ih]
    constructor
    · rintro (⟨t, ht⟩ | ⟨l₁, l₂, h⟩)
      · exact ⟨[], t, by simpa using ht⟩
      · exact ⟨c :: l₁, l₂, by simp [h]⟩
    · rintro ⟨l₁, l₂, h⟩
      cases l₁ with
      | nil => exact Or.inl ⟨l₂, by simpa using h⟩
      | cons c1 l₁ =>
        rw [List.cons_append, List.cons_append] at h
        injection h with h1 h2
        exact Or.inr ⟨l₁, l₂, h2⟩

theorem length_get_close_matches_le (word : String) (ps : List String)
    (n : Nat) (c : Rat) : (get_close_matches word ps n c).length ≤ n := by
  unfold get_close_matches
  rw [List.length_map, List.length_take]
  exact min_le_left _ _

theorem mem_get_close_matches (word : String) (ps : List String) (n : Nat)
    (c : Rat) : ∀ t ∈ get_close_matches word ps n c,
      t ∈ ps ∧ c ≤ similarity t word := by
  intro t ht
  unfold get_close_matches at ht
  obtain ⟨p, hp, rfl⟩ := List.mem_map.mp ht
  have hp3 : p ∈ ps.filterMap (fun x =>
      if c ≤ similarity x word then some (similarity x word, x) else none) :=
    (List.perm_insertionSort _ _).mem_iff.mp (List.mem_of_mem_take hp)
  obtain ⟨x, hx, hfx⟩ := List.mem_filterMap.mp hp3
  by_cases hcond : c ≤ similarity x word
  · rw [if_pos hcond] at hfx
    obtain rfl : (similarity x word, x) = p := Option.some.inj hfx
    exact ⟨hx, hcond⟩
  · rw [if_neg hcond] at hfx
    cases hfx

/-- C9.  `search` returns exactly the snapshot entries whose normalized
title contains the normalized query as a substring; when that match set is
empty it instead computes fuzzy suggestions from the snapshot's keys by
similarity ranking, capped at 5 suggestions, with similarity threshold 0.6
(= 3/5) on the 0-1 scale. -/
theorem C9_search_spec (m : MovieData) (q : String) :
    (∀ kv, kv ∈ m.filter (fun kv => hasSubChars (normalize q).data
        (normalize kv.1).data) ↔
      kv ∈ m ∧ ∃ l₁ l₂, (normalize kv.1).data =
        l₁ ++ (normalize q).data ++ l₂) ∧
    (m.filter (fun kv => hasSubChars (normalize q).data
        (normalize kv.1).data) ≠ [] →
      search_movie m q = SearchResult.found
        (m.filter (fun kv => hasSubChars (normalize q).data
          (normalize kv.1).data))) ∧
    (m.filter (fun kv => hasSubChars (normalize q).data
        (normalize kv.1).data) = [] →
      search_movie m q = SearchResult.suggestions
        (get_close_matches q (m.map Prod.fst) 5 (mkRat 3 5)) ∧
      (get_close_matches q (m.map Prod.fst) 5 (mkRat 3 5)).length ≤ 5 ∧
      ∀ t ∈ get_close_matches q (m.map Prod.fst) 5 (mkRat 3 5),
        t ∈ m.map Prod.fst ∧ mkRat 3 5 ≤ similarity t q) := by
  refine ⟨fun kv => ?_, fun hne => ?_, fun hnil => ?_⟩
  · rw [List.mem_filter]
    constructor
    · rintro ⟨h1, h2⟩
      exact ⟨h1, (hasSubChars_iff _ _).mp h2⟩
    · rintro ⟨h1, h2⟩
      exact ⟨h1, (hasSubChars_iff _ _).mpr h2⟩
  · have hemp : (m.filter (fun kv => hasSubChars (normalize q).data
        (normalize kv.1).data)).isEmpty = false := by
      cases hh : m.filter (fun kv => hasSubChars (normalize q).data
          (normalize kv.1).data) with
      | nil => exact absurd hh hne
      | cons a l => rfl
    simp only [search_movie, hemp, Bool.false_eq_true, if_false]
  · have hemp : (m.filter (fun kv => hasSubChars (normalize q).data
        (normalize kv.1).data)).isEmpty = true := by rw [hnil]; rfl
    refine ⟨?_, length_get_close_matches_le q (m.map Prod.fst) 5 (mkRat 3 5),
      mem_get_close_matches q (m.map Prod.fst) 5 (mkRat 3 5)⟩
    simp only [search_movie, hemp, if_true]

/-- Closed instances of `C9_search_spec`: a query matching by substring
containment yields the filtered entries; a query with no substring match
yields the capped, thresholded suggestion list. -/
theorem C9_search_spec_witness :
    search_movie [("Inception", ⟨2010, mkRat 88 10, ""⟩)] "CEPT " =
      SearchResult.found
        (([("Inception", ⟨2010, mkRat 88 10, ""⟩)] : MovieData).filter
          (fun kv => hasSubChars (normalize "CEPT ").data
            (normalize kv.1).data)) ∧
    (search_movie [("Inception", ⟨2010, mkRat 88 10, ""⟩)] "zzz" =
      SearchResult.suggestions (get_close_matches "zzz"
        (([("Inception", ⟨2010, mkRat 88 10, ""⟩)] : MovieData).map Prod.fst)
        5 (mkRat 3 5)) ∧
    (get_close_matches "zzz"
      (([("Inception", ⟨2010, mkRat 88 10, ""⟩)] : MovieData).map Prod.fst)
      5 (mkRat 3 5)).length ≤ 5 ∧
    ∀ t ∈ get_close_matches "zzz"
        (([("Inception", ⟨2010, mkRat 88 10, ""⟩)] : MovieData).map Prod.fst)
        5 (mkRat 3 5),
      t ∈ ([("Inception", ⟨2010, mkRat 88 10, ""⟩)] : MovieData).map
        Prod.fst ∧ mkRat 3 5 ≤ similarity t "zzz") :=
  ⟨(C9_search_spec [("Inception", ⟨2010, mkRat 88 10, ""⟩)] "CEPT ").2.1
      (by decide),
    (C9_search_spec [("Inception", ⟨2010, mkRat 88 10, ""⟩)] "zzz").2.2
      (by decide)⟩

end MovieApp
